import Mathlib

/-!
Verification development for the `spell-checker` repository
(`src/language_model.py`): a noisy-channel spell checker built on an
n-gram language model.

Python dictionaries (`collections.defaultdict(int)`) are embedded as
association lists `List (α × Nat)` that preserve insertion order; the
`d[k] += 1` idiom is `bump`, plain lookup with default 0 is `lookupD`,
and the defaultdict `d[k]` read (which inserts the key with value 0 when
missing) is `ddGet`.  Floating point `math.log` is embedded as an
abstract function parameter `Log : ℚ → ℚ`; all probability arithmetic is
exact over `ℚ`.  Python exceptions are embedded with `Except String`.
-/

set_option autoImplicit false

namespace SpellCheckerRepo

/-- Insertion-ordered association-list lookup with default 0
(`dict.get(k, 0)` / reading a `defaultdict(int)` entry that is known to
exist). -/
def lookupD {α : Type} [DecidableEq α] : List (α × Nat) → α → Nat
  | [], _ => 0
  | (k, v) :: rest, a => if k = a then v else lookupD rest a

/-- Python `d[k] += 1` on a `defaultdict(int)`: increment an existing
entry in place, or append a new entry with count 1. -/
def bump {α : Type} [DecidableEq α] : List (α × Nat) → α → List (α × Nat)
  | [], a => [(a, 1)]
  | (k, v) :: rest, a => if k = a then (k, v + 1) :: rest else (k, v) :: bump rest a

/-- Python `d[k] += c` on a `defaultdict(int)`. -/
def bumpBy {α : Type} [DecidableEq α] : List (α × Nat) → α → Nat → List (α × Nat)
  | [], a, c => [(a, c)]
  | (k, v) :: rest, a, c => if k = a then (k, v + c) :: rest else (k, v) :: bumpBy rest a c

/-- Python `sum(d.values())`. -/
def sumValues {α : Type} (l : List (α × Nat)) : Nat :=
  (l.map Prod.snd).sum

/-- Python `k in d` (key membership). -/
def containsKey {α : Type} [DecidableEq α] : List (α × Nat) → α → Bool
  | [], _ => false
  | (k, _) :: rest, a => if k = a then true else containsKey rest a

/-- Number of occurrences of `a` in a list. -/
def countOcc {α : Type} [DecidableEq α] (a : α) (l : List α) : Nat :=
  (l.filter (fun x => x = a)).length

/-- Reading `d[k]` on a `defaultdict(int)`: returns the stored value and
the (possibly extended) dictionary — a missing key is inserted with
value 0 as a side effect. -/
def ddGet {α : Type} [DecidableEq α] : List (α × Nat) → α → Nat × List (α × Nat)
  | [], a => (0, [(a, 0)])
  | (k, v) :: rest, a =>
    if k = a then (v, (k, v) :: rest)
    else
      let r := ddGet rest a
      (r.1, (k, v) :: r.2)

/-- Helper for `pySplit`: scan the characters, collecting the current
word in reverse in `acc` and emitting it at each whitespace boundary. -/
def splitWsAux : List Char → List Char → List String
  | [], acc => if acc = [] then [] else [String.mk acc.reverse]
  | c :: cs, acc =>
    if c.isWhitespace then
      (if acc = [] then [] else [String.mk acc.reverse]) ++ splitWsAux cs []
    else splitWsAux cs (c :: acc)

/-- Python `text.split()`: split on whitespace runs, discarding empty
pieces. -/
def pySplit (s : String) : List String :=
  splitWsAux s.toList []

/-- Python `list(text)`: the characters of a string, as one-character
strings. -/
def charTokens (s : String) : List String :=
  s.toList.map Char.toString

/-- Python `lst[-k:]` for a non-negative `k`: the whole list when
`k = 0`, otherwise the last `k` elements. -/
def pyLastSlice {α : Type} (l : List α) (k : Nat) : List α :=
  if k = 0 then l else l.drop (l.length - k)

/-- The state of `Spell_Checker.Language_Model`
(`src/language_model.py`, constructor at lines 273-290). -/
structure Language_Model where
  n : Nat
  chars : Bool
  model_dict : List (List String × Nat)
  token_frequency : List (String × Nat)
  total_token_count : Nat
  deriving DecidableEq

namespace Language_Model

/-- A freshly constructed `Language_Model(n, chars)`. -/
def init (n : Nat) (chars : Bool) : Language_Model :=
  { n := n, chars := chars, model_dict := [], token_frequency := [], total_token_count := 0 }

/-- Tokenization used by `build_model` and `evaluate_text`:
`list(text)` in character mode, `text.split()` in word mode. -/
def lmTokens (m : Language_Model) (text : String) : List String :=
  if m.chars then charTokens text else pySplit text

/-- The sentence-start padding marker. -/
def startTok : String := "<s>"

/-- The sentence-end padding marker. -/
def endTok : String := "</s>"

/-- Embedding of `Language_Model.build_model(text)` (lines 292-322): count token
frequencies (accumulating into the existing `defaultdict`), recompute
`total_token_count`, pad with `n-1` start markers and one end marker,
and count every n-length window into `model_dict` (again accumulating). -/
def build_model (m : Language_Model) (text : String) : Language_Model :=
  let words := m.lmTokens text
  let tf := words.foldl bump m.token_frequency
  let total := sumValues tf
  let padded := List.replicate (m.n - 1) startTok ++ words ++ [endTok]
  let md := (List.range (padded.length - m.n + 1)).foldl
    (fun d i => bump d ((padded.drop i).take m.n)) m.model_dict
  { m with token_frequency := tf, total_token_count := total, model_dict := md }

/-- Iterated `build_model` over a list of texts. -/
def buildSeq (m : Language_Model) (texts : List String) : Language_Model :=
  texts.foldl build_model m

/-- A language model that has been built: it arose from a freshly
constructed model by one or more `build_model` calls. -/
def Built (m : Language_Model) : Prop :=
  ∃ (n : Nat) (c : Bool) (texts : List String),
    texts ≠ [] ∧ m = buildSeq (init n c) texts

/-- The list of n-length windows counted by `build_model(text)`: the
padded token sequence swept by a window of size `n`. -/
def window_list (m : Language_Model) (text : String) : List (List String) :=
  let words := m.lmTokens text
  let padded := List.replicate (m.n - 1) startTok ++ words ++ [endTok]
  (List.range (padded.length - m.n + 1)).map (fun i => (padded.drop i).take m.n)

/-- Embedding of `Language_Model.smooth(ngram)` (lines 464-480): Laplace add-one
probability with the number of stored ngram entries as the extra
denominator term. -/
def smooth (m : Language_Model) (ngram : List String) : ℚ :=
  ((lookupD m.model_dict ngram : ℚ) + 1) /
    ((sumValues m.model_dict : ℚ) + (m.model_dict.length : ℚ))

/-- Embedding of `Language_Model._check_for_oov(tokens)` (lines 406-416): true when
not every token is a key of `token_frequency`. -/
def check_for_oov (m : Language_Model) (tokens : List String) : Bool :=
  !(tokens.all (fun t => containsKey m.token_frequency t))

/-- Embedding of `Language_Model.evaluate_text(text)` (lines 418-462), with
`math.log` abstracted as `Log`.  The accumulation loop runs over window
end positions `i ∈ [n-1, len(words))` exactly as the Python `for` loop
does; a window whose probability is 0 adds 0 (the `except ValueError`
branch). -/
def evaluate_text (Log : ℚ → ℚ) (m : Language_Model) (text : String) : ℚ :=
  let words := m.lmTokens text
  let sm := m.check_for_oov words
  let padded := List.replicate (m.n - 1) startTok ++ words ++ [endTok]
  (List.range' (m.n - 1) (padded.length - (m.n - 1))).foldl
    (fun acc i =>
      let ngram := (padded.drop (i + 1 - m.n)).take m.n
      let prob : ℚ :=
        if sm then m.smooth ngram
        else (lookupD m.model_dict ngram : ℚ) / (m.total_token_count : ℚ)
      acc + (if prob = 0 then 0 else Log prob)) 0

/-- Transcription of the specification sentence for `evaluate_text`
(spec §4.1): tokenize the same way as at build time, pad with `n-1`
start markers and one end marker, and sum, over all n-gram windows, the
log of the Laplace-smoothed probability when at least one unpadded token
is out-of-vocabulary and of the raw ratio `count/total_token_count`
otherwise, a zero probability contributing 0. -/
def evaluate_text_spec (Log : ℚ → ℚ) (m : Language_Model) (text : String) : ℚ :=
  let toks := m.lmTokens text
  let oov := toks.any (fun t => !(containsKey m.token_frequency t))
  let padded := List.replicate (m.n - 1) startTok ++ toks ++ [endTok]
  let windows := (List.range (padded.length - m.n + 1)).map
    (fun j => (padded.drop j).take m.n)
  (windows.map (fun g =>
    let p : ℚ :=
      if oov then m.smooth g
      else (lookupD m.model_dict g : ℚ) / (m.total_token_count : ℚ)
    if p = 0 then 0 else Log p)).sum

/-- One iteration step of `generate`'s next-token count collection
(lines 374-377): `counts[ngram[-1]] += count` for every stored ngram
whose prefix matches the current context. -/
def collectNext (md : List (List String × Nat)) (ctx : List String) :
    List (String × Nat) :=
  md.foldl
    (fun counts p =>
      if p.1.dropLast = ctx then bumpBy counts (p.1.getLastD "") p.2 else counts)
    []

/-- The `while len(output) < n` loop of `generate` (lines 372-390):
each iteration either samples one more token (via the abstract sampler
`pick`, standing for `random.choices`) or stops because no stored ngram
matches the current context.  The fuel equals the number of tokens still
missing, since each iteration appends exactly one token. -/
def genLoop (pick : List (String × ℚ) → String) (m : Language_Model) :
    Nat → List String → List String → List String
  | 0, _, out => out
  | fuel + 1, ctx, out =>
    let counts := collectNext m.model_dict ctx
    if counts = [] then out
    else
      let probabilities := counts.map
        (fun p => (p.1, (p.2 : ℚ) / (m.total_token_count : ℚ)))
      let next := pick probabilities
      genLoop pick m fuel (ctx.drop 1 ++ [next]) (out ++ [next])

/-- Embedding of `Language_Model.generate(context, n)` (lines 344-404).  The two
random draws are abstracted: `pickCtx` stands for `random.choice` over
the stored context prefixes and `pick` for `random.choices` over the
weighted next-token candidates. -/
def generate (pickCtx : List (List String) → List String)
    (pick : List (String × ℚ) → String) (m : Language_Model)
    (context : Option String) (n : Nat) : String :=
  let ctx0 : List String :=
    match context with
    | none => pickCtx (m.model_dict.map (fun p => p.1.dropLast))
    | some c => if m.chars then charTokens c else pySplit c
  let widened := List.replicate (m.n - ctx0.length) startTok ++ ctx0
  let ctx := pyLastSlice widened (m.n - 1)
  let out0 := genLoop pick m (n - ctx.length) ctx ctx
  let out1 := if out0.getLast? = some endTok then out0.dropLast else out0
  let out2 := out1.dropWhile (fun t => t = startTok)
  if m.chars then String.join out2 else String.intercalate " " out2

end Language_Model

/-- The lowercase alphabet used by `edits1`. -/
def lettersList : List Char := "abcdefghijklmnopqrstuvwxyz".toList

/-- Embedding of `Spell_Checker.edits1(token)` (lines 163-172), as the generated list
in the order of the four Python comprehensions; the Python `set` of it
is `(edits1 token).dedup` (membership and cardinality agree). -/
def edits1 (token : String) : List String :=
  let t := token.toList
  let splits := (List.range (t.length + 1)).map (fun i => (t.take i, t.drop i))
  let deletes := (splits.filter (fun p => p.2 ≠ [])).map
    (fun p => String.mk (p.1 ++ p.2.tail))
  let transposes := (splits.filter (fun p => 1 < p.2.length)).map
    (fun p => String.mk (p.1 ++
      (match p.2 with
       | a :: b :: rest => b :: a :: rest
       | l => l)))
  let replaces := (splits.filter (fun p => p.2 ≠ [])).flatMap
    (fun p => lettersList.map (fun c => String.mk (p.1 ++ c :: p.2.tail)))
  let inserts := splits.flatMap
    (fun p => lettersList.map (fun c => String.mk (p.1 ++ c :: p.2)))
  deletes ++ transposes ++ replaces ++ inserts

/-- Embedding of `Spell_Checker.edits2(word)` (lines 178-180): the generator
`(e2 for e1 in edits1(word) for e2 in edits1(e1))`, duplicates and all
(`edits1` itself is a set, hence the inner `dedup`). -/
def edits2 (word : String) : List String :=
  (edits1 word).dedup.flatMap (fun e1 => (edits1 e1).dedup)

/-- Insertion sort step on characters (for Python `sorted`). -/
def insertChar (c : Char) : List Char → List Char
  | [] => [c]
  | x :: xs => if c ≤ x then c :: x :: xs else x :: insertChar c xs

/-- Python `sorted` on the characters of a string. -/
def sortChars : List Char → List Char
  | [] => []
  | x :: xs => insertChar x (sortChars xs)

/-- Embedding of `Spell_Checker._check_error_type(token, candidate)` (lines 66-79). -/
def check_error_type (token candidate : List Char) : String :=
  if token.length < candidate.length then "deletion"
  else if candidate.length < token.length then "insertion"
  else if sortChars token = sortChars candidate then "transposition"
  else "substitution"

/-- Index of the first position where the two lists differ, scanning the
first list (`None` when the scan ends without a difference, which also
covers the Python `IndexError` of reading past the second list). -/
def firstDiffAux : List Char → List Char → Nat → Option Nat
  | [], _, _ => none
  | _ :: _, [], _ => none
  | x :: xs, y :: ys, i => if x ≠ y then some i else firstDiffAux xs ys (i + 1)

/-- Pair two optional characters into a two-character string; `none`
models a Python exception or a `None` return. -/
def combine2 : Option Char → Option Char → Option String
  | some a, some b => some (String.mk [a, b])
  | _, _ => none

/-- Embedding of `Spell_Checker._insertion_chars(token, candidate)` (lines 81-89).
Python `token[i-1]` with `i = 0` is `token[-1]`, the last character. -/
def insertion_chars (token candidate : List Char) : Option String :=
  match firstDiffAux candidate token 0 with
  | some i =>
    combine2 (if i = 0 then token.getLast? else token[i - 1]?) token[i]?
  | none =>
    match candidate with
    | [] => none
    | _ => combine2 token[candidate.length - 1]? token[candidate.length]?

/-- Embedding of `Spell_Checker._deletion_chars(token, candidate)` (lines 91-99). -/
def deletion_chars (token candidate : List Char) : Option String :=
  match firstDiffAux token candidate 0 with
  | some i =>
    combine2 (if i = 0 then token.getLast? else token[i - 1]?) candidate[i]?
  | none =>
    match token with
    | [] => none
    | _ => combine2 candidate[token.length - 1]? candidate[token.length]?

/-- Embedding of `Spell_Checker._transposition_chars(token, candidate)`
(lines 101-108): returns `None` when the strings never diverge. -/
def transposition_chars (token candidate : List Char) : Option String :=
  match firstDiffAux token candidate 0 with
  | some i => combine2 token[i + 1]? token[i]?
  | none => none

/-- Embedding of `Spell_Checker._substitution_chars(token, candidate)`
(lines 110-117): `zip` stops at the shorter string, returning `None`
when no position differs. -/
def substitution_chars (token candidate : List Char) : Option String :=
  match firstDiffAux token candidate 0 with
  | some i => combine2 token[i]? candidate[i]?
  | none => none

/-- Embedding of `Spell_Checker._check_characters_change(candidate, token)`
(lines 119-132): classify the error and dispatch to the matching
two-character extractor. -/
def check_characters_change (candidate token : String) : String × Option String :=
  let t := token.toList
  let c := candidate.toList
  let et := check_error_type t c
  (et,
    if et = "insertion" then insertion_chars t c
    else if et = "deletion" then deletion_chars t c
    else if et = "transposition" then transposition_chars t c
    else substitution_chars t c)

/-- Python `needle in hay` for strings: whether `p` occurs as a
contiguous run of `l`. -/
def hasPrefixChars : List Char → List Char → Bool
  | [], _ => true
  | _ :: _, [] => false
  | p :: ps, x :: xs => if p = x then hasPrefixChars ps xs else false

/-- Substring occurrence test over character lists. -/
def substrOf (p : List Char) : List Char → Bool
  | [] => hasPrefixChars p []
  | x :: xs => hasPrefixChars p (x :: xs) || substrOf p xs

/-- The loop body of `Spell_Checker.count_chars_in_lm` (lines 142-146):
total frequency of the vocabulary words containing the two-character
signature as a substring. -/
def countCharsIn (tf : List (String × Nat)) (two_chars : String) : Nat :=
  tf.foldl
    (fun count p =>
      if substrOf two_chars.toList p.1.toList then count + p.2 else count)
    0

/-- Error-table input (spec §3 ErrorTable): a read-only mapping from
error kind and two-character signature to a count, with the Python
`dict.get(chars, 0)` default built in; `Option` mirrors the
`error_tables = None` initial state. -/
abbrev ErrorTables := String → String → Nat

/-- The state of a `Spell_Checker` object (lines 21-29): an optional
language model and optional error tables. -/
structure Spell_Checker where
  lm : Option Language_Model
  error_tables : Option ErrorTables

/-- Error message raised by `evaluate_text` and `count_chars_in_lm` when
`self.lm` is `None`. -/
def noLmMsg : String := "Language model not set for this Spell_Checker instance"

/-- Error message for a Python `AttributeError` from touching
`self.lm.token_frequency` when `self.lm` is `None`. -/
def attrErrMsg : String := "AttributeError: NoneType object has no attribute token_frequency"

/-- Error message for Python `TypeError`s in the noisy-channel path
(substring test on `None`, or subscripting `error_tables = None`). -/
def typeErrMsg : String := "TypeError: NoneType operand"

/-- Embedding of `Spell_Checker.evaluate_text(text)` (lines 51-64): delegate to the
language model, or raise `ValueError` when no model is set. -/
def Spell_Checker.evaluate_text (Log : ℚ → ℚ) (sc : Spell_Checker) (text : String) :
    Except String ℚ :=
  match sc.lm with
  | some lm => .ok (lm.evaluate_text Log text)
  | none => .error noLmMsg

/-- Embedding of `Spell_Checker.count_chars_in_lm(two_chars)` (lines 134-146). -/
def Spell_Checker.count_chars_in_lm (sc : Spell_Checker) (two_chars : String) :
    Except String Nat :=
  match sc.lm with
  | none => .error noLmMsg
  | some lm => .ok (countCharsIn lm.token_frequency two_chars)

/-- Embedding of `Spell_Checker.calculate_log_noisy_channel(candidate, token)`
(lines 148-157), at a checker whose model is present, with the mutable
`token_frequency` threaded through (the `self.lm.token_frequency[candidate]`
read is a `defaultdict` access). -/
def calculate_log_noisy_channel (Log : ℚ → ℚ) (et : Option ErrorTables)
    (tf : List (String × Nat)) (total : Nat) (candidate token : String) :
    Except String (ℚ × List (String × Nat)) :=
  let ec := check_characters_change candidate token
  match ec.2 with
  | none => .error typeErrMsg
  | some chars =>
    let count_error_change := countCharsIn tf chars
    match et with
    | none => .error typeErrMsg
    | some tbl =>
      let count_error_in_table := tbl ec.1 chars
      let pxt : ℚ :=
        if count_error_change ≠ 0 then
          (count_error_in_table : ℚ) / (count_error_change : ℚ)
        else 0
      let r := ddGet tf candidate
      let pt : ℚ := (r.1 : ℚ) / (total : ℚ)
      let pt := if 0 < pt then pt else 1 / 10000
      let pxt := if 0 < pxt then pxt else 1 / 10000
      .ok (Log pxt + Log pt, r.2)

/-- Embedding of `Spell_Checker._generate_scores_with_noisy_channel(token, alpha,
candidates)` (lines 189-207); `simple` is the flag imported from the
missing `constants` module and `fullLen` is `len(candidates)` of the
whole collection being iterated. -/
def noisy_channel_scores (Log : ℚ → ℚ) (simple : Bool) (et : Option ErrorTables)
    (tf : List (String × Nat)) (total : Nat) (token : String) (alpha : ℚ)
    (fullLen : Nat) : List String → Except String (List (String × ℚ) × List (String × Nat))
  | [] => .ok ([], tf)
  | c :: rest =>
    if c = token then
      match noisy_channel_scores Log simple et tf total token alpha fullLen rest with
      | .error e => .error e
      | .ok (srest, tf1) => .ok ((c, Log alpha) :: srest, tf1)
    else
      match calculate_log_noisy_channel Log et tf total c token with
      | .error e => .error e
      | .ok (s, tf1) =>
        let sc := if simple then s else s + Log ((1 - alpha) / (fullLen : ℚ))
        match noisy_channel_scores Log simple et tf1 total token alpha fullLen rest with
        | .error e => .error e
        | .ok (srest, tf2) => .ok ((c, sc) :: srest, tf2)

/-- Embedding of `Spell_Checker.generate_scores_with_lm(candidates, token, alpha)`
(lines 209-220), with the mutable `token_frequency` threaded through
each `self.lm.token_frequency[candidate]` read. -/
def generate_scores_with_lm (tf : List (String × Nat)) (total : Nat)
    (token : String) (alpha : ℚ) :
    List String → List (String × ℚ) × List (String × Nat)
  | [] => ([], tf)
  | c :: rest =>
    let r := ddGet tf c
    let score : ℚ :=
      if c = token then max alpha ((r.1 : ℚ) / (total : ℚ))
      else (r.1 : ℚ) / (total : ℚ)
    let rec_ := generate_scores_with_lm r.2 total token alpha rest
    ((c, score) :: rec_.1, rec_.2)

/-- Python `max(scores, key=scores.get)`: the first key attaining the
maximal value (ties keep the earlier entry). -/
def argmaxD : List (String × ℚ) → String
  | [] => ""
  | (k, v) :: rest =>
    (rest.foldl (fun best p => if best.2 < p.2 then p else best) (k, v)).1

/-- The known-word filter `Spell_Checker.known(words)` (lines 174-176)
applied to a list of candidates against the live `token_frequency`. -/
def knownOf (tf : List (String × Nat)) (ws : List String) : List String :=
  ws.filter (fun w => containsKey tf w)

/-- The body of `spell_check`'s per-token loop (lines 239-258) for a
token that is neither punctuation/number nor already known, at a checker
whose model is present.  Each `known`/score step reads the threaded
`token_frequency`. -/
def correct_token (Log : ℚ → ℚ) (simple : Bool) (et : Option ErrorTables)
    (tf : List (String × Nat)) (total : Nat) (token : String) (alpha : ℚ) :
    Except String (String × List (String × Nat)) :=
  let c1 := knownOf tf (edits1 token).dedup
  let s1 := generate_scores_with_lm tf total token alpha c1
  if s1.1 ≠ [] then .ok (argmaxD s1.1, s1.2)
  else
    let c2 := (knownOf s1.2 (edits2 token)).dedup
    let s2 := generate_scores_with_lm s1.2 total token alpha c2
    if s2.1 ≠ [] then .ok (argmaxD s2.1, s2.2)
    else
      match noisy_channel_scores Log simple et s2.2 total token alpha c2.length c2 with
      | .error e => .error e
      | .ok (s3, tf3) =>
        if s3 = [] then .ok (token, tf3) else .ok (argmaxD s3, tf3)

/-- The variant of `correct_token` with the noisy-channel fallback
branch replaced by keeping the token unchanged (the refinement target of
the specification). -/
def correct_token_keep (tf : List (String × Nat)) (total : Nat)
    (token : String) (alpha : ℚ) :
    Except String (String × List (String × Nat)) :=
  let c1 := knownOf tf (edits1 token).dedup
  let s1 := generate_scores_with_lm tf total token alpha c1
  if s1.1 ≠ [] then .ok (argmaxD s1.1, s1.2)
  else
    let c2 := (knownOf s1.2 (edits2 token)).dedup
    let s2 := generate_scores_with_lm s1.2 total token alpha c2
    if s2.1 ≠ [] then .ok (argmaxD s2.1, s2.2)
    else .ok (token, s2.2)

/-- The token loop of `spell_check` (lines 238-258): punctuation and
numbers are kept without touching the model (so a missing model is only
an error at the first other token, surfacing as an `AttributeError`);
known tokens are kept; otherwise `correct_token` runs and the possibly
updated `token_frequency` is written back into the model. -/
def spell_check_tokens (Log : ℚ → ℚ) (simple : Bool)
    (PUNCTUATIONS NUMBERS : List String) (et : Option ErrorTables) (alpha : ℚ) :
    Option Language_Model → List String →
    Except String (List String × Option Language_Model)
  | lmOpt, [] => .ok ([], lmOpt)
  | lmOpt, token :: rest =>
    if token ∈ PUNCTUATIONS ∨ token ∈ NUMBERS then
      match spell_check_tokens Log simple PUNCTUATIONS NUMBERS et alpha lmOpt rest with
      | .error e => .error e
      | .ok (crest, lm1) => .ok (token :: crest, lm1)
    else
      match lmOpt with
      | none => .error attrErrMsg
      | some lm =>
        if containsKey lm.token_frequency token then
          match spell_check_tokens Log simple PUNCTUATIONS NUMBERS et alpha (some lm) rest with
          | .error e => .error e
          | .ok (crest, lm1) => .ok (token :: crest, lm1)
        else
          match correct_token Log simple et lm.token_frequency lm.total_token_count token alpha with
          | .error e => .error e
          | .ok (c, tf1) =>
            match spell_check_tokens Log simple PUNCTUATIONS NUMBERS et alpha
                (some { lm with token_frequency := tf1 }) rest with
            | .error e => .error e
            | .ok (crest, lm1) => .ok (c :: crest, lm1)

/-- The token loop of the refinement target: identical to
`spell_check_tokens` except that the dead noisy-channel fallback is
replaced by keeping the token. -/
def spell_check_tokens_keep (PUNCTUATIONS NUMBERS : List String) (alpha : ℚ) :
    Option Language_Model → List String →
    Except String (List String × Option Language_Model)
  | lmOpt, [] => .ok ([], lmOpt)
  | lmOpt, token :: rest =>
    if token ∈ PUNCTUATIONS ∨ token ∈ NUMBERS then
      match spell_check_tokens_keep PUNCTUATIONS NUMBERS alpha lmOpt rest with
      | .error e => .error e
      | .ok (crest, lm1) => .ok (token :: crest, lm1)
    else
      match lmOpt with
      | none => .error attrErrMsg
      | some lm =>
        if containsKey lm.token_frequency token then
          match spell_check_tokens_keep PUNCTUATIONS NUMBERS alpha (some lm) rest with
          | .error e => .error e
          | .ok (crest, lm1) => .ok (token :: crest, lm1)
        else
          match correct_token_keep lm.token_frequency lm.total_token_count token alpha with
          | .error e => .error e
          | .ok (c, tf1) =>
            match spell_check_tokens_keep PUNCTUATIONS NUMBERS alpha
                (some { lm with token_frequency := tf1 }) rest with
            | .error e => .error e
            | .ok (crest, lm1) => .ok (c :: crest, lm1)

/-- Embedding of `Spell_Checker.spell_check(text, alpha, normalize)` (lines 222-260).
The external collaborators are parameters: `wt` is `word_tokenize`,
`nf` is `normalize_text`, `PUNCTUATIONS`/`NUMBERS`/`simple` come from
the missing `constants` module, and `Log` is `math.log`. -/
def Spell_Checker.spell_check (wt : String → List String) (nf : String → String)
    (Log : ℚ → ℚ) (simple : Bool) (PUNCTUATIONS NUMBERS : List String)
    (sc : Spell_Checker) (text : String) (alpha : ℚ) (normalize : Bool) :
    Except String (String × Spell_Checker) :=
  let text1 := if normalize then nf text else text
  let tokens := wt text1
  match spell_check_tokens Log simple PUNCTUATIONS NUMBERS sc.error_tables alpha
      sc.lm tokens with
  | .error e => .error e
  | .ok (corrected, lm1) =>
    .ok (String.intercalate " " corrected, { sc with lm := lm1 })

/-- The refinement target for `spell_check`: the same procedure with the
noisy-channel fallback branch replaced by keeping the token unchanged. -/
def Spell_Checker.spell_check_keep (wt : String → List String) (nf : String → String)
    (PUNCTUATIONS NUMBERS : List String) (sc : Spell_Checker) (text : String)
    (alpha : ℚ) (normalize : Bool) : Except String (String × Spell_Checker) :=
  let text1 := if normalize then nf text else text
  let tokens := wt text1
  match spell_check_tokens_keep PUNCTUATIONS NUMBERS alpha sc.lm tokens with
  | .error e => .error e
  | .ok (corrected, lm1) =>
    .ok (String.intercalate " " corrected, { sc with lm := lm1 })

/-! ### Association-list dictionary lemmas -/

theorem lookupD_bump {α : Type} [DecidableEq α] (l : List (α × Nat)) (a b : α) :
    lookupD (bump l a) b = lookupD l b + if b = a then 1 else 0 := by
  induction l with
  | nil =>
    by_cases h : b = a
    · subst h; simp [bump, lookupD]
    · have h' : ¬a = b := fun hh => h hh.symm
      simp [bump, lookupD, h, h']
  | cons p rest ih =>
    obtain ⟨k, v⟩ := p
    by_cases hka : k = a
    · subst hka
      by_cases hkb : k = b
      · subst hkb; simp [bump, lookupD]
      · have hkb' : ¬b = k := fun hh => hkb hh.symm
        simp [bump, lookupD, hkb, hkb']
    · by_cases hkb : k = b
      · subst hkb; simp [bump, hka, lookupD]
      · simp [bump, hka, lookupD, hkb, ih]

theorem sumValues_bump {α : Type} [DecidableEq α] (l : List (α × Nat)) (a : α) :
    sumValues (bump l a) = sumValues l + 1 := by
  induction l with
  | nil => simp [bump, sumValues]
  | cons p rest ih =>
    obtain ⟨k, v⟩ := p
    by_cases hka : k = a
    · subst hka; simp [bump, sumValues]; omega
    · simp [bump, hka, sumValues] at ih ⊢; omega

theorem bump_ne_nil {α : Type} [DecidableEq α] (l : List (α × Nat)) (a : α) :
    bump l a ≠ [] := by
  cases l with
  | nil => simp [bump]
  | cons p rest =>
    obtain ⟨k, v⟩ := p
    by_cases hka : k = a <;> simp [bump, hka]

theorem keys_bump {α : Type} [DecidableEq α] (l : List (α × Nat)) (a b : α)
    (hb : b ∈ (bump l a).map Prod.fst) : b ∈ l.map Prod.fst ∨ b = a := by
  induction l with
  | nil =>
    simp [bump] at hb
    exact Or.inr hb
  | cons p rest ih =>
    obtain ⟨k, v⟩ := p
    by_cases hka : k = a
    · subst hka
      simp [bump] at hb
      rcases hb with h | h
      · exact Or.inr h
      · exact Or.inl (by simp [h])
    · simp [bump, hka] at hb
      rcases hb with h | h
      · exact Or.inl (by simp [h])
      · rcases ih (by simpa using h) with h' | h'
        · exact Or.inl (by simp at h' ⊢; exact Or.inr h')
        · exact Or.inr h'

theorem countOcc_cons {α : Type} [DecidableEq α] (a w : α) (ws : List α) :
    countOcc a (w :: ws) = (if w = a then 1 else 0) + countOcc a ws := by
  by_cases h : w = a <;> simp [countOcc, List.filter_cons, h] <;> omega

theorem lookupD_foldl_bump {α : Type} [DecidableEq α] (ws : List α)
    (l : List (α × Nat)) (a : α) :
    lookupD (ws.foldl bump l) a = lookupD l a + countOcc a ws := by
  induction ws generalizing l with
  | nil => simp [countOcc]
  | cons w ws ih =>
    simp only [List.foldl_cons, ih, lookupD_bump, countOcc_cons]
    by_cases h : a = w
    · subst h
      simp only [if_pos rfl]
      omega
    · have h' : ¬w = a := fun hh => h hh.symm
      simp only [if_neg h, if_neg h']
      omega

theorem sumValues_foldl_bump {α : Type} [DecidableEq α] (ws : List α)
    (l : List (α × Nat)) :
    sumValues (ws.foldl bump l) = sumValues l + ws.length := by
  induction ws generalizing l with
  | nil => simp
  | cons w ws ih =>
    simp only [List.foldl_cons, ih, sumValues_bump, List.length_cons]
    omega

theorem foldl_bump_ne_nil {α : Type} [DecidableEq α] (ws : List α)
    (l : List (α × Nat)) (h : l ≠ [] ∨ ws ≠ []) : ws.foldl bump l ≠ [] := by
  induction ws generalizing l with
  | nil => simpa using h.resolve_right (by simp)
  | cons w ws ih =>
    simp only [List.foldl_cons]
    exact ih (bump l w) (Or.inl (bump_ne_nil l w))

theorem keys_foldl_bump {α : Type} [DecidableEq α] (ws : List α)
    (l : List (α × Nat)) (a : α) (ha : a ∈ (ws.foldl bump l).map Prod.fst) :
    a ∈ l.map Prod.fst ∨ a ∈ ws := by
  induction ws generalizing l with
  | nil => exact Or.inl (by simpa using ha)
  | cons w ws ih =>
    rcases ih (bump l w) (by simpa using ha) with h | h
    · rcases keys_bump l w a h with h' | h'
      · exact Or.inl h'
      · exact Or.inr (by simp [h'])
    · exact Or.inr (by simp [h])

theorem lookupD_le_sumValues {α : Type} [DecidableEq α] (l : List (α × Nat)) (a : α) :
    lookupD l a ≤ sumValues l := by
  induction l with
  | nil => simp [lookupD, sumValues]
  | cons p rest ih =>
    obtain ⟨k, v⟩ := p
    by_cases h : k = a <;> simp [lookupD, h, sumValues] at ih ⊢ <;> omega

theorem ddGet_containsKey {α : Type} [DecidableEq α] (l : List (α × Nat)) (a : α)
    (h : containsKey l a = true) : ddGet l a = (lookupD l a, l) := by
  induction l with
  | nil => simp [containsKey] at h
  | cons p rest ih =>
    obtain ⟨k, v⟩ := p
    by_cases hka : k = a
    · simp [ddGet, lookupD, hka]
    · simp [containsKey, hka] at h
      simp [ddGet, lookupD, hka, ih h]

/-! ### Unfolding lemmas for `build_model` -/

theorem lookupD_nil {α : Type} [DecidableEq α] (a : α) :
    lookupD ([] : List (α × Nat)) a = 0 := rfl

theorem build_model_token_frequency (m : Language_Model) (t : String) :
    (m.build_model t).token_frequency = (m.lmTokens t).foldl bump m.token_frequency := rfl

theorem build_model_model_dict (m : Language_Model) (t : String) :
    (m.build_model t).model_dict = (m.window_list t).foldl bump m.model_dict := by
  simp only [Language_Model.build_model, Language_Model.window_list, List.foldl_map]

theorem build_total_inv (m : Language_Model) (t : String) :
    (m.build_model t).total_token_count = sumValues (m.build_model t).token_frequency := rfl

theorem lmTokens_build (m : Language_Model) (t t' : String) :
    (m.build_model t).lmTokens t' = m.lmTokens t' := rfl

theorem window_list_build (m : Language_Model) (t t' : String) :
    (m.build_model t).window_list t' = m.window_list t' := rfl

theorem lookupD_build_tf (m : Language_Model) (t : String) (w : String) :
    lookupD (m.build_model t).token_frequency w =
      lookupD m.token_frequency w + countOcc w (m.lmTokens t) := by
  rw [build_model_token_frequency, lookupD_foldl_bump]

theorem lookupD_build_md (m : Language_Model) (t : String) (g : List String) :
    lookupD (m.build_model t).model_dict g =
      lookupD m.model_dict g + countOcc g (m.window_list t) := by
  rw [build_model_model_dict, lookupD_foldl_bump]

theorem build_total_eq (m : Language_Model) (t : String) :
    (m.build_model t).total_token_count =
      sumValues m.token_frequency + (m.lmTokens t).length := by
  rw [build_total_inv, build_model_token_frequency, sumValues_foldl_bump]

theorem window_list_ne_nil (m : Language_Model) (t : String) :
    m.window_list t ≠ [] := by
  simp only [Language_Model.window_list, ne_eq, List.map_eq_nil_iff,
    List.range_eq_nil]
  simp only [List.length_append, List.length_replicate, List.length_cons,
    List.length_nil]
  omega

theorem build_md_ne_nil (m : Language_Model) (t : String) :
    (m.build_model t).model_dict ≠ [] := by
  rw [build_model_model_dict]
  exact foldl_bump_ne_nil _ _ (Or.inr (window_list_ne_nil m t))

theorem nodup_keys_bump {α : Type} [DecidableEq α] (l : List (α × Nat)) (a : α)
    (h : (l.map Prod.fst).Nodup) : ((bump l a).map Prod.fst).Nodup := by
  induction l with
  | nil => simp [bump]
  | cons p rest ih =>
    obtain ⟨k, v⟩ := p
    simp only [List.map_cons, List.nodup_cons] at h
    by_cases hka : k = a
    · subst hka
      simp [bump, h.1, h.2]
    · simp only [bump, if_neg hka, List.map_cons, List.nodup_cons]
      refine ⟨?_, ih h.2⟩
      intro hk
      rcases keys_bump rest a k hk with h' | h'
      · exact h.1 h'
      · exact hka h'

theorem nodup_keys_foldl_bump {α : Type} [DecidableEq α] (ws : List α)
    (l : List (α × Nat)) (h : (l.map Prod.fst).Nodup) :
    ((ws.foldl bump l).map Prod.fst).Nodup := by
  induction ws generalizing l with
  | nil => simpa using h
  | cons w ws ih => exact ih (bump l w) (nodup_keys_bump l w h)

theorem built_md_ne_nil (m : Language_Model) (h : Language_Model.Built m) : m.model_dict ≠ [] := by
  obtain ⟨n, c, texts, hne, rfl⟩ := h
  have key : ∀ (ts : List String) (m0 : Language_Model),
      ts ≠ [] ∨ m0.model_dict ≠ [] →
      (Language_Model.buildSeq m0 ts).model_dict ≠ [] := by
    intro ts
    induction ts with
    | nil =>
      intro m0 hm
      exact hm.resolve_left (by simp)
    | cons t ts ih =>
      intro m0 _
      exact ih (m0.build_model t) (Or.inr (build_md_ne_nil m0 t))
  exact key texts (Language_Model.init n c) (Or.inl hne)

theorem built_nodup_keys (m : Language_Model) (h : Language_Model.Built m) :
    (m.model_dict.map Prod.fst).Nodup := by
  obtain ⟨n, c, texts, _, rfl⟩ := h
  have key : ∀ (ts : List String) (m0 : Language_Model),
      (m0.model_dict.map Prod.fst).Nodup →
      ((Language_Model.buildSeq m0 ts).model_dict.map Prod.fst).Nodup := by
    intro ts
    induction ts with
    | nil => intro m0 hm; exact hm
    | cons t ts ih =>
      intro m0 hm
      refine ih (m0.build_model t) ?_
      rw [build_model_model_dict]
      exact nodup_keys_foldl_bump _ _ hm
  exact key texts (Language_Model.init n c) (by simp [Language_Model.init])

/-! ### Lemmas for `evaluate_text` -/

theorem foldl_add_sum {α : Type} (f : α → ℚ) (l : List α) (init : ℚ) :
    l.foldl (fun acc x => acc + f x) init = init + (l.map f).sum := by
  induction l generalizing init with
  | nil => simp
  | cons x xs ih => simp [ih, add_assoc]

theorem bool_not_all (p : String → Bool) (l : List String) :
    (!(l.all p)) = l.any (fun x => !(p x)) := by
  induction l with
  | nil => rfl
  | cons x xs ih => simp [List.all_cons, List.any_cons, Bool.not_and, ih]

theorem fold_windows (nn : Nat) (padded : List String) (C : List String → ℚ)
    (h : 1 ≤ nn) (hp : nn ≤ padded.length) :
    (List.range' (nn - 1) (padded.length - (nn - 1))).foldl
      (fun acc i => acc + C ((padded.drop (i + 1 - nn)).take nn)) 0 =
    (((List.range (padded.length - nn + 1)).map
        (fun j => (padded.drop j).take nn)).map C).sum := by
  rw [List.range'_eq_map_range, List.foldl_map, List.map_map]
  have hlen : padded.length - (nn - 1) = padded.length - nn + 1 := by omega
  rw [hlen]
  rw [show (fun (x : ℚ) (y : Nat) =>
      x + C ((padded.drop (nn - 1 + y + 1 - nn)).take nn)) =
    (fun (x : ℚ) (y : Nat) => x + C ((padded.drop y).take nn)) from by
      funext x y
      have hy : nn - 1 + y + 1 - nn = y := by omega
      rw [hy]]
  rw [foldl_add_sum (fun j => C ((padded.drop j).take nn)), zero_add]
  rfl

/-! ### Counting lemmas for `edits1` -/

theorem sum_map_const {β : Type} (l : List β) (c : Nat) :
    (l.map (fun _ => c)).sum = c * l.length := by
  induction l with
  | nil => simp
  | cons x xs ih => simp [ih]; ring

theorem countP_range_lt (n k : Nat) :
    (List.range n).countP (fun i => decide (i < k)) = min n k := by
  induction n with
  | zero => simp
  | succ n ih =>
    rw [List.range_succ, List.countP_append, ih, List.countP_singleton]
    by_cases hk : n < k
    · simp [hk]; omega
    · simp [hk]; omega

/-! ### Lemmas about the spell-check pipeline -/

theorem gswlm_fst_eq_nil_iff (tf : List (String × Nat)) (total : Nat)
    (token : String) (alpha : ℚ) (cs : List String) :
    (generate_scores_with_lm tf total token alpha cs).1 = [] ↔ cs = [] := by
  cases cs with
  | nil => simp [generate_scores_with_lm]
  | cons c rest => simp [generate_scores_with_lm]

theorem gswlm_snd_of_known (tf : List (String × Nat)) (total : Nat)
    (token : String) (alpha : ℚ) :
    ∀ (cs : List String), (∀ c ∈ cs, containsKey tf c = true) →
    (generate_scores_with_lm tf total token alpha cs).2 = tf
  | [], _ => rfl
  | c :: rest, h => by
    simp only [generate_scores_with_lm]
    rw [ddGet_containsKey tf c (h c (by simp))]
    exact gswlm_snd_of_known tf total token alpha rest
      (fun x hx => h x (by simp [hx]))

theorem knownOf_spec (tf : List (String × Nat)) (ws : List String) :
    ∀ c ∈ knownOf tf ws, containsKey tf c = true := by
  intro c hc
  exact (List.mem_filter.mp hc).2

theorem knownOf_dedup_spec (tf : List (String × Nat)) (ws : List String) :
    ∀ c ∈ (knownOf tf ws).dedup, containsKey tf c = true :=
  fun c hc => knownOf_spec tf ws c (List.mem_dedup.mp hc)

theorem correct_token_eq_keep (Log : ℚ → ℚ) (simple : Bool)
    (et : Option ErrorTables) (tf : List (String × Nat)) (total : Nat)
    (token : String) (alpha : ℚ) :
    correct_token Log simple et tf total token alpha =
      correct_token_keep tf total token alpha := by
  simp only [correct_token, correct_token_keep]
  split_ifs with h1 h2
  · rfl
  · rfl
  · have hc2 : (knownOf (generate_scores_with_lm tf total token alpha
        (knownOf tf (edits1 token).dedup)).2 (edits2 token)).dedup = [] :=
      (gswlm_fst_eq_nil_iff _ _ _ _ _).mp (not_not.mp h2)
    rw [hc2]
    rfl

theorem correct_token_keep_frame (tf : List (String × Nat)) (total : Nat)
    (token : String) (alpha : ℚ) :
    ∃ r, correct_token_keep tf total token alpha = .ok (r, tf) := by
  have hc1 : (generate_scores_with_lm tf total token alpha
      (knownOf tf (edits1 token).dedup)).2 = tf :=
    gswlm_snd_of_known _ _ _ _ _ (knownOf_spec tf _)
  simp only [correct_token_keep, hc1]
  have hc2 : (generate_scores_with_lm tf total token alpha
      ((knownOf tf (edits2 token)).dedup)).2 = tf :=
    gswlm_snd_of_known _ _ _ _ _ (knownOf_dedup_spec tf _)
  split_ifs with h1 h2
  · exact ⟨_, rfl⟩
  · exact ⟨_, by rw [hc2]⟩
  · exact ⟨token, by rw [hc2]⟩

theorem spell_check_tokens_eq_keep (Log : ℚ → ℚ) (simple : Bool)
    (PUNCTUATIONS NUMBERS : List String) (et : Option ErrorTables) (alpha : ℚ)
    (tokens : List String) (lmOpt : Option Language_Model) :
    spell_check_tokens Log simple PUNCTUATIONS NUMBERS et alpha lmOpt tokens =
      spell_check_tokens_keep PUNCTUATIONS NUMBERS alpha lmOpt tokens := by
  induction tokens generalizing lmOpt with
  | nil => rfl
  | cons token rest ih =>
    simp only [spell_check_tokens, spell_check_tokens_keep, ih,
      correct_token_eq_keep]

theorem spell_check_tokens_frame (Log : ℚ → ℚ) (simple : Bool)
    (PUNCTUATIONS NUMBERS : List String) (et : Option ErrorTables) (alpha : ℚ)
    (tokens : List String) :
    ∀ (lm : Language_Model), ∃ outs,
      spell_check_tokens Log simple PUNCTUATIONS NUMBERS et alpha
        (some lm) tokens = .ok (outs, some lm) := by
  induction tokens with
  | nil => intro lm; exact ⟨[], rfl⟩
  | cons token rest ih =>
    intro lm
    obtain ⟨outs, houts⟩ := ih lm
    by_cases hp : token ∈ PUNCTUATIONS ∨ token ∈ NUMBERS
    · exact ⟨token :: outs, by
        simp only [spell_check_tokens, if_pos hp, houts]⟩
    · by_cases hk : containsKey lm.token_frequency token = true
      · exact ⟨token :: outs, by
          simp only [spell_check_tokens, if_neg hp, if_pos hk, houts]⟩
      · obtain ⟨r, hr⟩ := correct_token_keep_frame lm.token_frequency
          lm.total_token_count token alpha
        have hct : correct_token Log simple et lm.token_frequency
            lm.total_token_count token alpha = .ok (r, lm.token_frequency) := by
          rw [correct_token_eq_keep]; exact hr
        refine ⟨r :: outs, ?_⟩
        simp only [spell_check_tokens, if_neg hp, if_neg hk, hct]
        have heta : { lm with token_frequency := lm.token_frequency } = lm := rfl
        rw [heta, houts]

theorem spell_check_tokens_none (Log : ℚ → ℚ) (simple : Bool)
    (PUNCTUATIONS NUMBERS : List String) (et : Option ErrorTables) (alpha : ℚ)
    (tokens : List String) :
    spell_check_tokens Log simple PUNCTUATIONS NUMBERS et alpha none tokens =
      (if tokens.all (fun t => decide (t ∈ PUNCTUATIONS ∨ t ∈ NUMBERS))
       then .ok (tokens, none) else .error attrErrMsg) := by
  induction tokens with
  | nil => rfl
  | cons token rest ih =>
    by_cases hp : token ∈ PUNCTUATIONS ∨ token ∈ NUMBERS
    · simp only [spell_check_tokens, if_pos hp, ih]
      by_cases hall : (rest.all fun t => decide (t ∈ PUNCTUATIONS ∨ t ∈ NUMBERS)) = true
      · rw [if_pos hall, List.all_cons]
        simp only [hp, hall]
        rw [if_pos (by simpa using hall)]
      · rw [if_neg hall, List.all_cons]
        simp only [hp, hall]
        rw [if_neg (by simpa using hall)]
    · simp [spell_check_tokens, hp]

/-! ### Claim theorems -/

namespace Claims

/-- C1 counterexample: on a fresh trigram word model, building on
`"a"` and then on `"b"` does not leave the same state as building on
`"b"` alone — the first build's token survives. -/
theorem build_model_not_replacing :
    ¬ (Language_Model.build_model
        (Language_Model.build_model (Language_Model.init 3 false) "a") "b" =
      Language_Model.build_model (Language_Model.init 3 false) "b") := by
  decide

/-- C1 (amended): `build_model` accumulates instead of replacing.
After `build_model(t1)` then `build_model(t2)` on a fresh model, every
token count, the total token count, and every n-gram count equal the
corresponding count after the first build plus the corresponding count
of a single fresh build on `t2`. -/
theorem build_model_accumulates (n : Nat) (c : Bool) (t1 t2 : String)
    (w : String) (g : List String) :
    lookupD (Language_Model.build_model
        (Language_Model.build_model (Language_Model.init n c) t1) t2).token_frequency w =
      lookupD (Language_Model.build_model (Language_Model.init n c) t1).token_frequency w +
      lookupD (Language_Model.build_model (Language_Model.init n c) t2).token_frequency w ∧
    (Language_Model.build_model
        (Language_Model.build_model (Language_Model.init n c) t1) t2).total_token_count =
      (Language_Model.build_model (Language_Model.init n c) t1).total_token_count +
      (Language_Model.build_model (Language_Model.init n c) t2).total_token_count ∧
    lookupD (Language_Model.build_model
        (Language_Model.build_model (Language_Model.init n c) t1) t2).model_dict g =
      lookupD (Language_Model.build_model (Language_Model.init n c) t1).model_dict g +
      lookupD (Language_Model.build_model (Language_Model.init n c) t2).model_dict g := by
  refine ⟨?_, ?_, ?_⟩
  · rw [lookupD_build_tf, lmTokens_build, lookupD_build_tf, lookupD_build_tf]
    simp [Language_Model.init, lookupD]
  · rw [build_total_eq ((Language_Model.init n c).build_model t1) t2,
      build_total_eq (Language_Model.init n c) t1,
      build_total_eq (Language_Model.init n c) t2,
      build_model_token_frequency, sumValues_foldl_bump, lmTokens_build]
    simp only [Language_Model.init, sumValues, List.map_nil, List.sum_nil]
    omega
  · rw [lookupD_build_md, window_list_build, lookupD_build_md, lookupD_build_md]
    simp [Language_Model.init, lookupD]

/-- C2: `evaluate_text` tokenizes its input the same way as at build
time, pads with `n-1` start markers and one end marker, and returns the
sum over all n-gram windows of the log probability, where the
probability is the Laplace-smoothed one for every window when at least
one unpadded input token is out-of-vocabulary and the raw ratio
`count(ngram)/total_token_count` otherwise, a window of probability 0
contributing exactly 0. -/
theorem evaluate_text_matches_spec (Log : ℚ → ℚ) (m : Language_Model)
    (text : String) (h : 1 ≤ m.n) :
    m.evaluate_text Log text = m.evaluate_text_spec Log text := by
  have hb := bool_not_all (fun t => containsKey m.token_frequency t) (m.lmTokens text)
  simp only [Language_Model.evaluate_text, Language_Model.evaluate_text_spec,
    Language_Model.check_for_oov, hb]
  exact fold_windows m.n
    (List.replicate (m.n - 1) Language_Model.startTok ++ m.lmTokens text ++
      [Language_Model.endTok])
    (fun g =>
      if (if (m.lmTokens text).any (fun t => !(containsKey m.token_frequency t))
          then m.smooth g
          else (lookupD m.model_dict g : ℚ) / (m.total_token_count : ℚ)) = 0 then 0
      else Log (if (m.lmTokens text).any (fun t => !(containsKey m.token_frequency t))
          then m.smooth g
          else (lookupD m.model_dict g : ℚ) / (m.total_token_count : ℚ)))
    h
    (by
      simp only [List.length_append, List.length_replicate, List.length_cons,
        List.length_nil]
      omega)

/-- C2 witness: the two formulations agree at a concrete bigram model
and text. -/
theorem evaluate_text_matches_spec_witness :
    Language_Model.evaluate_text (fun q => q)
        (Language_Model.build_model (Language_Model.init 2 false) "a b") "a" =
      Language_Model.evaluate_text_spec (fun q => q)
        (Language_Model.build_model (Language_Model.init 2 false) "a b") "a" :=
  evaluate_text_matches_spec (fun q => q)
    (Language_Model.build_model (Language_Model.init 2 false) "a b") "a" (by decide)

set_option maxRecDepth 8192 in
/-- C3 (code bug evidence): on the trigram word model built on
`"x y"`, `generate(context="a b c", n=3)` returns `"b c"` — the last
`n-1` context tokens — instead of the first 3 tokens `"a b c"`
promised by the method docstring, for every sampler (none is consulted,
since no stored n-gram matches the truncated context). -/
theorem generate_truncates_context :
    Language_Model.generate (fun _ => []) (fun _ => "")
      (Language_Model.build_model (Language_Model.init 3 false) "x y")
      (some "a b c") 3 = "b c" := by
  decide

set_option maxRecDepth 65536 in
/-- C5 counterexample: the set `edits1("cat")` has 182 elements, which
is neither `54*len+25 = 187` (the size of the generated multiset) nor
the 184 stated by the specification. -/
theorem edits1_cat_cardinality :
    (edits1 "cat").dedup.length = 182 ∧
    ¬ ((edits1 "cat").dedup.length = 54 * "cat".length + 25) ∧
    ¬ ((edits1 "cat").dedup.length = 184) := by
  decide

set_option maxRecDepth 65536 in
/-- C5 (amended): for every non-empty token the generated edit list
(before set deduplication) has exactly `54*len+25` entries
(len deletes, len-1 transposes, 26*len replaces, 26*(len+1) inserts);
as a set, `edits1("cat")` has 182 elements and contains `"bat"`,
`"ct"`, `"act"` and `"cats"`. -/
theorem edits1_counts (t : String) (h : 1 ≤ t.length) :
    (edits1 t).length = 54 * t.length + 25 ∧
    (edits1 "cat").dedup.length = 182 ∧
    "bat" ∈ edits1 "cat" ∧ "ct" ∈ edits1 "cat" ∧
    "act" ∈ edits1 "cat" ∧ "cats" ∈ edits1 "cat" := by
  refine ⟨?_, by decide, by decide, by decide, by decide, by decide⟩
  simp only [edits1, List.length_append, List.length_map, List.length_flatMap,
    ← List.countP_eq_length_filter, List.countP_map]
  have hL : t.length = t.toList.length := rfl
  have hdel : (List.range (t.toList.length + 1)).countP
      ((fun p : List Char × List Char => decide (p.2 ≠ [])) ∘
        fun i => (List.take i t.toList, List.drop i t.toList)) = t.toList.length := by
    have hc := List.countP_congr
      (p := (fun p : List Char × List Char => decide (p.2 ≠ [])) ∘
        fun i => (List.take i t.toList, List.drop i t.toList))
      (q := fun i => decide (i < t.toList.length))
      (l := List.range (t.toList.length + 1))
      (by
        intro i hi
        simp only [List.mem_range] at hi
        simp only [Function.comp_apply, decide_eq_true_eq, ne_eq,
          List.drop_eq_nil_iff]
        omega)
    rw [hc, countP_range_lt]
    omega
  have htrans : (List.range (t.toList.length + 1)).countP
      ((fun p : List Char × List Char => decide (1 < p.2.length)) ∘
        fun i => (List.take i t.toList, List.drop i t.toList)) = t.toList.length - 1 := by
    have hc := List.countP_congr
      (p := (fun p : List Char × List Char => decide (1 < p.2.length)) ∘
        fun i => (List.take i t.toList, List.drop i t.toList))
      (q := fun i => decide (i < t.toList.length - 1))
      (l := List.range (t.toList.length + 1))
      (by
        intro i hi
        simp only [List.mem_range] at hi
        simp only [Function.comp_apply, decide_eq_true_eq, List.length_drop]
        omega)
    rw [hc, countP_range_lt]
    omega
  have hconst1 : (List.length ∘ fun p : List Char × List Char =>
      List.map (fun c => String.mk (p.1 ++ c :: p.2.tail)) lettersList) =
      fun _ => 26 := by
    funext p
    rw [Function.comp_apply, List.length_map]
    rfl
  have hconst2 : (List.length ∘ fun p : List Char × List Char =>
      List.map (fun c => String.mk (p.1 ++ c :: p.2)) lettersList) =
      fun _ => 26 := by
    funext p
    rw [Function.comp_apply, List.length_map]
    rfl
  rw [hconst1, hconst2, sum_map_const, sum_map_const,
    ← List.countP_eq_length_filter, List.countP_map, hdel, htrans,
    List.length_map, List.length_range]
  omega

/-- C5 witness: the amended count at the token `"cat"` itself. -/
theorem edits1_counts_witness :
    (edits1 "cat").length = 54 * "cat".length + 25 :=
  (edits1_counts "cat" (by decide)).1

/-- C6 counterexample: for the trigram model built on the single-token
text `"a"`, the n-gram counts sum to `total_token_count + 1` (= 2), not
to `total_token_count + (n - 1)` (= 3). -/
theorem ngram_sum_counterexample :
    ¬ (sumValues (Language_Model.build_model (Language_Model.init 3 false) "a").model_dict =
        (Language_Model.build_model (Language_Model.init 3 false) "a").total_token_count +
        (3 - 1)) := by
  decide

/-- C6 (amended): after a single `build_model` call on a fresh model
with window size `n ≥ 1`, every key of the n-gram table is a tuple of
exactly `n` tokens, and the n-gram counts sum to
`total_token_count + 1` (one window per original token plus one for the
end marker). -/
theorem build_model_ngram_invariants (n : Nat) (c : Bool) (text : String)
    (h : 1 ≤ n) :
    (∀ p ∈ (Language_Model.build_model (Language_Model.init n c) text).model_dict,
        p.1.length = n) ∧
    sumValues (Language_Model.build_model (Language_Model.init n c) text).model_dict =
      (Language_Model.build_model (Language_Model.init n c) text).total_token_count + 1 := by
  constructor
  · intro p hp
    have hkey : p.1 ∈ ((Language_Model.init n c).window_list text) := by
      have h2 := keys_foldl_bump ((Language_Model.init n c).window_list text)
        (Language_Model.init n c).model_dict p.1
        (by rw [← build_model_model_dict]; exact List.mem_map_of_mem Prod.fst hp)
      simpa [Language_Model.init] using h2
    simp only [Language_Model.window_list, List.mem_map, List.mem_range] at hkey
    obtain ⟨i, hi, hwin⟩ := hkey
    rw [← hwin]
    simp only [List.length_take, List.length_drop, List.length_append,
      List.length_replicate, List.length_cons, List.length_nil,
      Language_Model.init] at hi ⊢
    omega
  · rw [build_model_model_dict, sumValues_foldl_bump, build_total_eq]
    simp only [Language_Model.window_list, Language_Model.init, sumValues,
      List.map_nil, List.sum_nil, List.length_map, List.length_range,
      List.length_append, List.length_replicate, List.length_cons, List.length_nil]
    omega

/-- C9: after every non-empty sequence of `build_model` calls,
`total_token_count` equals the sum of the values of `token_frequency`
(the last build recomputes the total from the accumulated counts). -/
theorem total_eq_sum_token_frequency (n : Nat) (c : Bool) (texts : List String)
    (h : texts ≠ []) :
    (Language_Model.buildSeq (Language_Model.init n c) texts).total_token_count =
      sumValues (Language_Model.buildSeq (Language_Model.init n c) texts).token_frequency := by
  have key : ∀ (ts : List String) (m : Language_Model), ts ≠ [] →
      (Language_Model.buildSeq m ts).total_token_count =
        sumValues (Language_Model.buildSeq m ts).token_frequency := by
    intro ts
    induction ts with
    | nil => intro m hm; exact absurd rfl hm
    | cons t ts ih =>
      intro m _
      show (Language_Model.buildSeq (m.build_model t) ts).total_token_count = _
      cases ts with
      | nil => exact build_total_inv m t
      | cons t' ts' => exact ih (m.build_model t) (by simp)
  exact key texts (Language_Model.init n c) h

/-- C4: `spell_check` is observationally equivalent to the same
procedure with the noisy-channel fallback branch replaced by keeping the
token unchanged, for every tokenizer, normalizer, log function, `simple`
flag, punctuation/number sets, checker state, text, alpha and normalize
flag: `generate_scores_with_lm` yields one score per candidate, so the
noisy-channel scorer is only ever invoked on an empty candidate pool and
never determines an output token. -/
theorem spell_check_equiv_keep (wt : String → List String) (nf : String → String)
    (Log : ℚ → ℚ) (simple : Bool) (PUNCTUATIONS NUMBERS : List String)
    (sc : Spell_Checker) (text : String) (alpha : ℚ) (normalize : Bool) :
    Spell_Checker.spell_check wt nf Log simple PUNCTUATIONS NUMBERS sc text
        alpha normalize =
      Spell_Checker.spell_check_keep wt nf PUNCTUATIONS NUMBERS sc text
        alpha normalize := by
  simp only [Spell_Checker.spell_check, Spell_Checker.spell_check_keep,
    spell_check_tokens_eq_keep]

/-- C8: `spell_check` is side-effect-free on the attached language model
and error tables: whenever a model is attached, the call succeeds and
returns the checker state unchanged (every `defaultdict` read it
performs is on a key known to be present). -/
theorem spell_check_frame (wt : String → List String) (nf : String → String)
    (Log : ℚ → ℚ) (simple : Bool) (PUNCTUATIONS NUMBERS : List String)
    (sc : Spell_Checker) (lm : Language_Model) (text : String) (alpha : ℚ)
    (normalize : Bool) (h : sc.lm = some lm) :
    ∃ out, Spell_Checker.spell_check wt nf Log simple PUNCTUATIONS NUMBERS sc
        text alpha normalize = .ok (out, sc) := by
  obtain ⟨outs, houts⟩ := spell_check_tokens_frame Log simple PUNCTUATIONS
    NUMBERS sc.error_tables alpha (wt (if normalize then nf text else text)) lm
  refine ⟨String.intercalate " " outs, ?_⟩
  simp only [Spell_Checker.spell_check, h, houts]
  rw [← h]

/-- C8 witness: the frame property at a concrete checker, model and
text. -/
theorem spell_check_frame_witness :
    ∃ out, Spell_Checker.spell_check pySplit (fun s => s) (fun q => q) false
        [] []
        ⟨some (Language_Model.build_model (Language_Model.init 2 false) "hello world"),
          none⟩
        "helo" (1/2) false =
      .ok (out,
        ⟨some (Language_Model.build_model (Language_Model.init 2 false) "hello world"),
          none⟩) :=
  spell_check_frame pySplit (fun s => s) (fun q => q) false [] []
    ⟨some (Language_Model.build_model (Language_Model.init 2 false) "hello world"),
      none⟩
    (Language_Model.build_model (Language_Model.init 2 false) "hello world")
    "helo" (1/2) false rfl

/-- C10 counterexample: `spell_check` on a checker with no language
model does not fail at all on the empty text (its tokenization is
empty, so the missing model is never touched): it returns the empty
string, not a configuration error. -/
theorem spell_check_no_model_no_error :
    Spell_Checker.spell_check pySplit (fun s => s) (fun q => q) false [] []
      ⟨none, none⟩ "" (1/2) false = .ok ("", ⟨none, none⟩) := rfl

/-- C10 (amended): with no language model attached, `evaluate_text` and
`count_chars_in_lm` (the gate of noisy-channel scoring) raise
`ValueError` with the message "Language model not set for this
Spell_Checker instance", but `spell_check` performs no such check: it
returns a text whose tokens are all punctuation or numbers unchanged and
fails with an `AttributeError` on the first other token. -/
theorem no_model_error_behavior :
    (∀ (Log : ℚ → ℚ) (et : Option ErrorTables) (text : String),
      Spell_Checker.evaluate_text Log ⟨none, et⟩ text = .error noLmMsg) ∧
    (∀ (et : Option ErrorTables) (two_chars : String),
      Spell_Checker.count_chars_in_lm ⟨none, et⟩ two_chars = .error noLmMsg) ∧
    (∀ (wt : String → List String) (nf : String → String) (Log : ℚ → ℚ)
        (simple : Bool) (PUNCTUATIONS NUMBERS : List String)
        (et : Option ErrorTables) (text : String) (alpha : ℚ) (normalize : Bool),
      Spell_Checker.spell_check wt nf Log simple PUNCTUATIONS NUMBERS
          ⟨none, et⟩ text alpha normalize =
        (if (wt (if normalize then nf text else text)).all
            (fun t => decide (t ∈ PUNCTUATIONS ∨ t ∈ NUMBERS))
         then .ok (String.intercalate " "
            (wt (if normalize then nf text else text)), ⟨none, et⟩)
         else .error attrErrMsg)) := by
  refine ⟨fun _ _ _ => rfl, fun _ _ => rfl, ?_⟩
  intro wt nf Log simple PUNCTUATIONS NUMBERS et text alpha normalize
  simp only [Spell_Checker.spell_check, spell_check_tokens_none]
  by_cases hall : ((wt (if normalize then nf text else text)).all
      (fun t => decide (t ∈ PUNCTUATIONS ∨ t ∈ NUMBERS))) = true
  · rw [if_pos hall, if_pos hall]
  · rw [if_neg hall, if_neg hall]

/-- C9 witness: the invariant at a concrete one-build sequence. -/
theorem total_eq_sum_token_frequency_witness :
    (Language_Model.buildSeq (Language_Model.init 3 false) ["a b a"]).total_token_count =
      sumValues (Language_Model.buildSeq (Language_Model.init 3 false) ["a b a"]).token_frequency :=
  total_eq_sum_token_frequency 3 false ["a b a"] (by decide)

/-- C7: on every built language model, `smooth(ngram)` equals
`(count(ngram)+1) / (sum of all observed ngram counts + number of
distinct observed ngrams)`, lies in the half-open interval `(0, 1]`,
and is strictly monotone in the ngram count. -/
theorem smooth_props (m : Language_Model) (g g1 g2 : List String) (h : Language_Model.Built m) :
    m.smooth g = ((lookupD m.model_dict g : ℚ) + 1) /
        ((sumValues m.model_dict : ℚ) +
          (((m.model_dict.map Prod.fst).dedup).length : ℚ)) ∧
    0 < m.smooth g ∧ m.smooth g ≤ 1 ∧
    (lookupD m.model_dict g1 < lookupD m.model_dict g2 →
      m.smooth g1 < m.smooth g2) := by
  have hne := built_md_ne_nil m h
  have hnodup := built_nodup_keys m h
  have hlen : 1 ≤ m.model_dict.length := List.length_pos.mpr hne
  have hD : (0 : ℚ) < (sumValues m.model_dict : ℚ) + (m.model_dict.length : ℚ) := by
    have h1 : (0 : ℚ) ≤ (sumValues m.model_dict : ℚ) := by positivity
    have h2 : (1 : ℚ) ≤ (m.model_dict.length : ℚ) := by exact_mod_cast hlen
    linarith
  refine ⟨?_, ?_, ?_, ?_⟩
  · rw [hnodup.dedup, List.length_map]
    rfl
  · apply div_pos _ hD
    positivity
  · rw [Language_Model.smooth]
    rw [div_le_one hD]
    have hc := lookupD_le_sumValues m.model_dict g
    have : lookupD m.model_dict g + 1 ≤ sumValues m.model_dict + m.model_dict.length := by
      omega
    exact_mod_cast this
  · intro hlt
    rw [Language_Model.smooth, Language_Model.smooth]
    rw [div_lt_div_right hD]
    have : lookupD m.model_dict g1 + 1 < lookupD m.model_dict g2 + 1 := by omega
    exact_mod_cast this

/-- C7 witness: positivity of the smoothed probability at a concrete
built model and ngram. -/
theorem smooth_props_witness :
    0 < (Language_Model.build_model (Language_Model.init 3 false) "a b").smooth ["a"] :=
  (smooth_props (Language_Model.build_model (Language_Model.init 3 false) "a b")
    ["a"] [] [] ⟨3, false, ["a b"], by decide, rfl⟩).2.1

/-- C6 witness: the amended invariants at the concrete trigram model
built on `"a"`. -/
theorem build_model_ngram_invariants_witness :
    (∀ p ∈ (Language_Model.build_model (Language_Model.init 3 false) "a").model_dict,
        p.1.length = 3) ∧
    sumValues (Language_Model.build_model (Language_Model.init 3 false) "a").model_dict =
      (Language_Model.build_model (Language_Model.init 3 false) "a").total_token_count + 1 :=
  build_model_ngram_invariants 3 false "a" (by decide)

end Claims

end SpellCheckerRepo
